import Mathlib

/-!
Verification of the PDF search engine core of `app.py` (class `PDFSearcher`).

The engine is shallowly embedded:
* Python strings are Lean `String`s; `str.lower()`, `str.strip()`,
  `str.replace(old, new)` (single-character `old`) and the substring test
  `a in b` are re-implemented structurally below (`pyLower`, `pyStrip`,
  `replaceChar`, `pySubstr`).
* `re.search` is modelled by a small regex engine (`reSearch`) covering the
  fragment of Python regular expressions that the searcher's pattern battery
  generates: literal characters, `\`-escapes, `\s`, `.`, character classes
  (with ranges, `\s` items and negation) and the `?`/`+`/`*` quantifiers.
  Constructs outside this fragment (groups, alternation, anchors, braces,
  other `\`-classes) make the parser fail, which the matching loop treats
  exactly like Python's `re.error`: the pattern variant is skipped.
* The filesystem is a value: a flag saying whether the search root exists,
  plus the list of `.pdf` files produced by `rglob`/`glob`.  Each file
  carries the text a successful extraction would yield, a flag for
  extraction failure (PyPDF2 raising, caught inside
  `extract_text_from_pdf`, line 41-43) and a flag for a per-file processing
  error (`stat` failing, caught by the scan loop at line 179-181).
* `st_mtime` is modelled as an `Int` (only its ordering matters),
  `max_results` (read with `getint`, documented as a result cap) as a `Nat`.
-/

/-- Python `str.lower()`. -/
def pyLower (s : String) : String := ⟨s.data.map Char.toLower⟩

/-- Python `str.strip()` with no argument: remove leading and trailing
whitespace. -/
def pyStrip (s : String) : String :=
  ⟨((s.data.dropWhile Char.isWhitespace).reverse.dropWhile Char.isWhitespace).reverse⟩

/-- `isPre n h` holds when `n` is a prefix of `h` (helper for the Python
substring test). -/
def isPre : List Char → List Char → Bool
  | [], _ => true
  | _ :: _, [] => false
  | a :: as, b :: bs => a == b && isPre as bs

/-- Python's substring test `needle in hay` on the underlying characters. -/
def infixB (needle : List Char) : List Char → Bool
  | [] => isPre needle []
  | b :: t => isPre needle (b :: t) || infixB needle t

/-- Python's substring test `needle in hay` for strings. -/
def pySubstr (needle hay : String) : Bool := infixB needle.data hay.data

/-- Python `s.replace(c, r)` for a single-character pattern `c`: every
occurrence of `c` is replaced by `r` (character-list level). -/
def replaceCharL (cs : List Char) (c : Char) (r : List Char) : List Char :=
  cs.foldr (fun x a => if x == c then r ++ a else x :: a) []

/-- Python `s.replace(c, r)` for a single-character pattern `c`. -/
def replaceChar (s : String) (c : Char) (r : String) : String :=
  ⟨replaceCharL s.data c r.data⟩

/-- Characters escaped by Python 3.7+ `re.escape`. -/
def reEscSpecial (c : Char) : Bool :=
  c == '(' || c == ')' || c == '[' || c == ']' || c == '?' || c == '*' ||
  c == '+' || c == '-' || c == '|' || c == '^' || c == '$' || c == '\\' ||
  c == '.' || c == '&' || c == '~' || c == '#' || c == ' ' || c == '\t' ||
  c == '\n' || c == '\r' || c == Char.ofNat 11 || c == Char.ofNat 12 ||
  c == Char.ofNat 123 || c == Char.ofNat 125

/-- Python `re.escape`. -/
def reEscape (s : String) : String :=
  ⟨s.data.foldr (fun c acc => if reEscSpecial c then '\\' :: c :: acc else c :: acc) []⟩

/-- One member of a regex character class: a single character, a range, or
the whitespace class `\s`. -/
inductive ClassItem where
  | ch (c : Char)
  | range (lo hi : Char)
  | ws
deriving DecidableEq

/-- A regex atom: literal character, `.`, `\s`, or a character class. -/
inductive Atom where
  | lit (c : Char)
  | anyChar
  | ws
  | cls (neg : Bool) (items : List ClassItem)
deriving DecidableEq

/-- A regex atom together with its quantifier (none, `?`, `+`, `*`). -/
inductive Piece where
  | once (a : Atom)
  | opt (a : Atom)
  | plus (a : Atom)
  | star (a : Atom)
deriving DecidableEq

/-- State of the regex pattern parser (a character-by-character machine).
`err` corresponds to Python raising `re.error`. -/
inductive PState where
  | err
  | norm (acc : List Piece) (pend : Option Atom)
  | escape (acc : List Piece)
  | cls0 (acc : List Piece)
  | cls1 (acc : List Piece) (neg : Bool)
  | clsBody (acc : List Piece) (neg : Bool) (items : List ClassItem) (lastC : Option Char)
  | clsEsc (acc : List Piece) (neg : Bool) (items : List ClassItem)
  | clsDash (acc : List Piece) (neg : Bool) (items : List ClassItem) (c : Char)
deriving DecidableEq

/-- Commit a pending (unquantified) atom. -/
def flushP (acc : List Piece) (pend : Option Atom) : List Piece :=
  match pend with
  | none => acc
  | some a => Piece.once a :: acc

/-- One step of the regex pattern parser. -/
def step (st : PState) (x : Char) : PState :=
  match st with
  | .err => .err
  | .norm acc pend =>
    if x == '?' then
      match pend with
      | some a => .norm (Piece.opt a :: acc) none
      | none => .err
    else if x == '+' then
      match pend with
      | some a => .norm (Piece.plus a :: acc) none
      | none => .err
    else if x == '*' then
      match pend with
      | some a => .norm (Piece.star a :: acc) none
      | none => .err
    else if x == '\\' then .escape (flushP acc pend)
    else if x == '[' then .cls0 (flushP acc pend)
    else if x == '.' then .norm (flushP acc pend) (some Atom.anyChar)
    else if x == '(' || x == ')' || x == '|' || x == '^' || x == '$' ||
            x == Char.ofNat 123 || x == Char.ofNat 125 then .err
    else .norm (flushP acc pend) (some (Atom.lit x))
  | .escape acc =>
    if x == 's' then .norm acc (some Atom.ws)
    else if x.isAlphanum then .err
    else .norm acc (some (Atom.lit x))
  | .cls0 acc =>
    if x == '^' then .cls1 acc true
    else if x == '\\' then .clsEsc acc false []
    else .clsBody acc false [ClassItem.ch x] (some x)
  | .cls1 acc neg =>
    if x == '\\' then .clsEsc acc neg []
    else .clsBody acc neg [ClassItem.ch x] (some x)
  | .clsBody acc neg items lastC =>
    if x == ']' then .norm acc (some (Atom.cls neg items.reverse))
    else if x == '\\' then .clsEsc acc neg items
    else if x == '-' then
      match lastC with
      | some c => .clsDash acc neg (items.drop 1) c
      | none => .clsBody acc neg (ClassItem.ch '-' :: items) none
    else .clsBody acc neg (ClassItem.ch x :: items) (some x)
  | .clsEsc acc neg items =>
    if x == 's' then .clsBody acc neg (ClassItem.ws :: items) none
    else if x.isAlphanum then .err
    else .clsBody acc neg (ClassItem.ch x :: items) (some x)
  | .clsDash acc neg items c =>
    if x == ']' then
      .norm acc (some (Atom.cls neg (ClassItem.ch '-' :: ClassItem.ch c :: items).reverse))
    else if x == '\\' then .err
    else .clsBody acc neg (ClassItem.range c x :: items) none

/-- Final parser state to parse result: anything but a completed top-level
state is a malformed pattern. -/
def finalize : PState → Option (List Piece)
  | .norm acc pend => some ((flushP acc pend).reverse)
  | _ => none

/-- Parse a regex pattern string (the modelled fragment of `re.compile`);
`none` models `re.error`. -/
def parseRE (s : String) : Option (List Piece) :=
  finalize (s.data.foldl step (PState.norm [] none))

/-- Character comparison, case-insensitively when `ic` is set
(`re.IGNORECASE`). -/
def ceq (ic : Bool) (a b : Char) : Bool :=
  if ic then a.toLower == b.toLower else a == b

/-- Does a character match one class item? -/
def itemMatch (ic : Bool) (x : Char) : ClassItem → Bool
  | .ch c => ceq ic c x
  | .range lo hi =>
    (decide (lo.val ≤ x.val) && decide (x.val ≤ hi.val)) ||
      (ic && decide (lo.toLower.val ≤ x.toLower.val) && decide (x.toLower.val ≤ hi.toLower.val))
  | .ws => x.isWhitespace

/-- Does a character match an atom? -/
def matchAtom (ic : Bool) (a : Atom) (x : Char) : Bool :=
  match a with
  | .lit c => ceq ic c x
  | .anyChar => x != '\n'
  | .ws => x.isWhitespace
  | .cls neg items => if neg then !(items.any (itemMatch ic x)) else items.any (itemMatch ic x)

/-- Does the piece list match a prefix of the character list?  `fuel` is a
step bound; every recursive call strictly decreases
`pieces.length + input.length`, so the `ps.length + s.length + 1` budget
supplied by `reMatchAt` is never exhausted. -/
def matchHere (ic : Bool) : Nat → List Piece → List Char → Bool
  | 0, _, _ => false
  | _ + 1, [], _ => true
  | fuel + 1, p :: ps, s =>
    match p with
    | .once a =>
      match s with
      | [] => false
      | c :: t => matchAtom ic a c && matchHere ic fuel ps t
    | .opt a =>
      matchHere ic fuel ps s ||
        (match s with
         | [] => false
         | c :: t => matchAtom ic a c && matchHere ic fuel ps t)
    | .plus a =>
      match s with
      | [] => false
      | c :: t => matchAtom ic a c && (matchHere ic fuel ps t || matchHere ic fuel (p :: ps) t)
    | .star a =>
      matchHere ic fuel ps s ||
        (match s with
         | [] => false
         | c :: t => matchAtom ic a c && matchHere ic fuel (p :: ps) t)

/-- Does the piece list match at the start of `s`? -/
def reMatchAt (ic : Bool) (ps : List Piece) (s : List Char) : Bool :=
  matchHere ic (ps.length + s.length + 1) ps s

/-- Does the piece list match anywhere in `s` (Python `re.search` on a
compiled pattern)? -/
def reFind (ic : Bool) (ps : List Piece) : List Char → Bool
  | [] => reMatchAt ic ps []
  | c :: t => reMatchAt ic ps (c :: t) || reFind ic ps t

/-- Python `re.search(pattern, text, flags)`: `none` models `re.error`,
`some b` reports whether a match was found. -/
def reSearch (ic : Bool) (pattern text : String) : Option Bool :=
  (parseRE pattern).map fun ps => reFind ic ps text.data

/-- Configuration (`config.ini` values read in `PDFSearcher.__init__`). -/
structure Config where
  search_directory : String
  case_sensitive : Bool
  search_subdirectories : Bool
  max_results : Nat
deriving DecidableEq

/-- One candidate `.pdf` file of the corpus as the engine can observe it. -/
structure PdfFile where
  /-- `pdf_file.name` -/
  name : String
  /-- `str(pdf_file)` -/
  path : String
  /-- `str(pdf_file.relative_to(search_path))` -/
  relative_path : String
  /-- text of the first (up to) 5 pages, as a successful extraction returns it -/
  content : String
  /-- `False` when PyPDF2 raises while reading the file -/
  extract_ok : Bool
  /-- `False` when per-file processing (`stat`, …) raises -/
  stat_ok : Bool
  size : Nat
  mtime : Int
deriving DecidableEq

/-- The directory tree under the configured search root. -/
structure FileSystem where
  root_exists : Bool
  /-- `search_path.rglob("*.pdf")` -/
  files_recursive : List PdfFile
  /-- `search_path.glob("*.pdf")` -/
  files_top : List PdfFile
deriving DecidableEq

/-- The corpus-level failure of a search call (`FileNotFoundError`,
app.py line 115). -/
inductive SearchError where
  | DirectoryNotFound
deriving DecidableEq

/-- One result record built at app.py lines 159-171. -/
structure SearchResult where
  filename : String
  path : String
  relative_path : String
  /-- the `matches` key of the result dict (`matches` is a Lean keyword) -/
  all_matches : List String
  filename_matches : List String
  content_matches : List String
  size : Nat
  modified : Int
  relevance_score : Nat
deriving DecidableEq

/-- Case normalization applied to terms, filenames and extracted text
(`.lower()` unless `case_sensitive`). -/
def normCase (cfg : Config) (s : String) : String :=
  if cfg.case_sensitive then s else pyLower s

/-- `PDFSearcher.extract_text_from_pdf` (app.py lines 27-43): the extracted
text, case-folded, or `""` when reading the PDF raised. -/
def extract_text_from_pdf (cfg : Config) (f : PdfFile) : String :=
  if f.extract_ok then normCase cfg f.content else ""

/-- `PDFSearcher.search_in_filename` (app.py lines 45-56): plain substring
containment of each non-empty case-folded term in the case-folded
filename. -/
def search_in_filename (cfg : Config) (filename : String) (search_terms : List (String × String)) : List String :=
  search_terms.filterMap fun kv =>
    if kv.2 != "" then
      if pySubstr (normCase cfg kv.2) (normCase cfg filename) then some kv.1 else none
    else none

/-- The ordered battery of pattern variants tried for one term
(app.py lines 68-74). -/
def patternVariants (t : String) : List String :=
  [t, reEscape t, replaceChar t '-' "[-\\s]?", replaceChar t '/' "[/\\s]?", replaceChar t ' ' "\\s+"]

/-- The inner pattern loop of `search_in_content` (app.py lines 77-84):
first variant that matches wins; a variant raising `re.error` is skipped. -/
def tryPatterns (ic : Bool) : List String → String → Bool
  | [], _ => false
  | p :: rest, content =>
    match reSearch ic p content with
    | none => tryPatterns ic rest content
    | some true => true
    | some false => tryPatterns ic rest content

/-- `PDFSearcher.search_in_content` (app.py lines 58-86). -/
def search_in_content (cfg : Config) (content : String) (search_terms : List (String × String)) : List String :=
  search_terms.filterMap fun kv =>
    if kv.2 != "" then
      if tryPatterns (!cfg.case_sensitive) (patternVariants (normCase cfg kv.2)) content then
        some kv.1
      else none
    else none

/-- The trimmed, empties-filtered criteria built at app.py lines 98-105. -/
def mkSearchTerms (expediente sello caratula : String) : List (String × String) :=
  [("expediente", pyStrip expediente), ("sello", pyStrip sello),
   ("caratula", pyStrip caratula)].filter fun kv => kv.2 != ""

/-- `filename_matches` of one file (app.py line 135). -/
def fnMatchesOf (cfg : Config) (ts : List (String × String)) (f : PdfFile) : List String :=
  search_in_filename cfg f.name ts

/-- `content_matches` of one file (app.py lines 139-142): content is
extracted and searched only when the filename matched nothing or
`match_all` is requested. -/
def cmMatchesOf (cfg : Config) (ts : List (String × String)) (m : Bool) (f : PdfFile) : List String :=
  if (fnMatchesOf cfg ts f).isEmpty || m then
    search_in_content cfg (extract_text_from_pdf cfg f) ts
  else []

/-- `all_matches = list(set(filename_matches + content_matches))`
(app.py line 145); only membership and cardinality of the set are used. -/
def allMatchesOf (cfg : Config) (ts : List (String × String)) (m : Bool) (f : PdfFile) : List String :=
  (fnMatchesOf cfg ts f ++ cmMatchesOf cfg ts m f).dedup

/-- The inclusion policy (app.py lines 148-156). -/
def shouldInclude (cfg : Config) (ts : List (String × String)) (m : Bool) (f : PdfFile) : Bool :=
  if m then (ts.map Prod.fst).all fun k => (allMatchesOf cfg ts m f).contains k
  else !(allMatchesOf cfg ts m f).isEmpty

/-- The result record built at app.py lines 159-171. -/
def mkResult (cfg : Config) (ts : List (String × String)) (m : Bool) (f : PdfFile) : SearchResult :=
  { filename := f.name
    path := f.path
    relative_path := f.relative_path
    all_matches := allMatchesOf cfg ts m f
    filename_matches := fnMatchesOf cfg ts f
    content_matches := cmMatchesOf cfg ts m f
    size := f.size
    modified := f.mtime
    relevance_score := (allMatchesOf cfg ts m f).length }

/-- Processing of one candidate file inside the scan loop (app.py lines
130-181): `none` when the file is not included — either it fails the
inclusion policy or a per-file error (modelled by `stat_ok = false`) was
caught at line 179, skipping the file. -/
def processFile (cfg : Config) (ts : List (String × String)) (m : Bool) (f : PdfFile) : Option SearchResult :=
  if f.stat_ok then
    if shouldInclude cfg ts m f then some (mkResult cfg ts m f) else none
  else none

/-- The scan loop (app.py lines 125-181): accumulate qualifying records,
breaking once `max_results` is reached. -/
def scanLoop (cfg : Config) (ts : List (String × String)) (m : Bool) : List PdfFile → List SearchResult → List SearchResult
  | [], results => results
  | f :: rest, results =>
    if cfg.max_results ≤ results.length then results
    else
      match processFile cfg ts m f with
      | some r => scanLoop cfg ts m rest (results ++ [r])
      | none => scanLoop cfg ts m rest results

/-- The ranking relation of app.py line 184: descending by
`relevance_score`, then descending by `modified`.  `RankRel a b` says `a`
may be placed before `b`. -/
abbrev RankRel (a b : SearchResult) : Prop :=
  b.relevance_score < a.relevance_score ∨
    (a.relevance_score = b.relevance_score ∧ b.modified ≤ a.modified)

instance : IsTotal SearchResult RankRel where
  total a b := by
    rcases Nat.lt_trichotomy a.relevance_score b.relevance_score with h | h | h
    · exact Or.inr (Or.inl h)
    · rcases Int.le_total a.modified b.modified with h' | h'
      · exact Or.inr (Or.inr ⟨h.symm, h'⟩)
      · exact Or.inl (Or.inr ⟨h, h'⟩)
    · exact Or.inl (Or.inl h)

instance : IsTrans SearchResult RankRel where
  trans a b c hab hbc := by
    rcases hab with h1 | ⟨h1, h1'⟩
    · rcases hbc with h2 | ⟨h2, h2'⟩
      · exact Or.inl (Nat.lt_trans h2 h1)
      · exact Or.inl (by rw [← h2]; exact h1)
    · rcases hbc with h2 | ⟨h2, h2'⟩
      · exact Or.inl (by rw [h1]; exact h2)
      · exact Or.inr ⟨h1.trans h2, Int.le_trans h2' h1'⟩

instance : DecidableRel RankRel := fun a b =>
  inferInstanceAs (Decidable (b.relevance_score < a.relevance_score ∨
    (a.relevance_score = b.relevance_score ∧ b.modified ≤ a.modified)))

/-- `PDFSearcher.search_pdfs` (app.py lines 88-187).  The stable sort of
line 184 (`results.sort(key=lambda x: (x['relevance_score'], x['modified']),
reverse=True)`) is rendered by the stable `insertionSort` under `RankRel`. -/
def search_pdfs (cfg : Config) (fs : FileSystem) (expediente sello caratula : String) (match_all : Bool) : Except SearchError (List SearchResult) :=
  if (mkSearchTerms expediente sello caratula).isEmpty then Except.ok []
  else if fs.root_exists = false then Except.error SearchError.DirectoryNotFound
  else
    Except.ok (List.insertionSort RankRel
      (scanLoop cfg (mkSearchTerms expediente sello caratula) match_all
        (if cfg.search_subdirectories then fs.files_recursive else fs.files_top) []))

instance {ε α : Type} [DecidableEq ε] [DecidableEq α] : DecidableEq (Except ε α) := fun a b =>
  match a, b with
  | .ok x, .ok y =>
    if h : x = y then .isTrue (by rw [h]) else .isFalse fun hc => h (by injection hc)
  | .ok _, .error _ => .isFalse fun hc => Except.noConfusion hc
  | .error _, .ok _ => .isFalse fun hc => Except.noConfusion hc
  | .error x, .error y =>
    if h : x = y then .isTrue (by rw [h]) else .isFalse fun hc => h (by injection hc)

/-- Paths of the result records of a search outcome. -/
def pathsOf (x : Except SearchError (List SearchResult)) : List String :=
  match x with
  | .ok l => l.map fun r => r.path
  | .error _ => []

/-- Result list of a search outcome (`[]` for an error). -/
def resultsOf (x : Except SearchError (List SearchResult)) : List SearchResult :=
  match x with
  | .ok l => l
  | .error _ => []

/-- Characters with no special meaning for the modelled regex fragment:
they parse as literal atoms. -/
def plainRegexChar (x : Char) : Bool :=
  !(x == '?' || x == '+' || x == '*' || x == '\\' || x == '[' || x == '.' ||
    x == '(' || x == ')' || x == '|' || x == '^' || x == '$' ||
    x == Char.ofNat 123 || x == Char.ofNat 125)

/-- The compiled form of the hyphen pattern variant of a term consisting of
plain characters and hyphens: plain characters become literals, each hyphen
becomes the optional class `[-\s]?`. -/
def piecesOf (cs : List Char) : List Piece :=
  cs.map fun c =>
    if c == '-' then Piece.opt (Atom.cls false [ClassItem.ch '-', ClassItem.ws])
    else Piece.once (Atom.lit c)

/-- Fixture: the default configuration (`config.ini` fallbacks). -/
def cfg0 : Config := ⟨"./pdfs", false, true, 100⟩

/-- Fixture: the default configuration with the result cap set to 1. -/
def cfgCap1 : Config := ⟨"./pdfs", false, true, 1⟩

/-- Fixture: a file whose name contains "100" but not "55". -/
def fA : PdfFile := ⟨"expediente_100.pdf", "pdfs/expediente_100.pdf", "expediente_100.pdf", "", true, true, 10, 5⟩

/-- Fixture: a file whose content contains "55" but whose name matches
nothing. -/
def fB : PdfFile := ⟨"b.pdf", "pdfs/b.pdf", "b.pdf", "sello 55 caratula juan perez", true, true, 20, 9⟩

/-- Fixture: a file whose name contains both "100" and "55". -/
def fC : PdfFile := ⟨"100 55.pdf", "pdfs/100 55.pdf", "100 55.pdf", "", true, true, 7, 1⟩

/-- Fixture: a file whose text extraction fails. -/
def fBadExtract : PdfFile := ⟨"x.pdf", "pdfs/x.pdf", "x.pdf", "texto perdido", false, true, 3, 2⟩

/-- Fixture: a file whose per-file processing (`stat`) fails. -/
def fBadStat : PdfFile := ⟨"expediente_100.pdf", "pdfs/y.pdf", "y.pdf", "", true, false, 4, 3⟩

/-- Fixture: an existing corpus with three files. -/
def fs0 : FileSystem := ⟨true, [fA, fB, fC], []⟩

/-- Fixture: corpus for the cap-truncation counterexample. -/
def fsCex : FileSystem := ⟨true, [fA, fC], []⟩

/-- Fixture: a missing search root. -/
def fsNone : FileSystem := ⟨false, [], []⟩

lemma tryPatterns_eq_any (ic : Bool) :
    ∀ (ps : List String) (content : String),
      tryPatterns ic ps content = ps.any fun p => (reSearch ic p content).getD false := by
  intro ps
  induction ps with
  | nil => intro content; rfl
  | cons p rest ih =>
    intro content
    unfold tryPatterns
    cases h : reSearch ic p content with
    | none => simp [h, ih]
    | some b => cases b <;> simp [h, ih]

lemma mem_search_in_filename {cfg : Config} {fn : String} {ts : List (String × String)} {k : String} :
    k ∈ search_in_filename cfg fn ts ↔
      ∃ v, (k, v) ∈ ts ∧ (v != "") = true ∧ pySubstr (normCase cfg v) (normCase cfg fn) = true := by
  unfold search_in_filename
  rw [List.mem_filterMap]
  constructor
  · rintro ⟨⟨k', v⟩, hkv, hf⟩
    dsimp only at hf
    split at hf
    · split at hf
      · exact ⟨v, by injection hf with h; rw [← h]; exact hkv, by assumption, by assumption⟩
      · exact absurd hf (by simp)
    · exact absurd hf (by simp)
  · rintro ⟨v, hkv, hne, hsub⟩
    exact ⟨(k, v), hkv, by simp [hne, hsub]⟩

lemma mem_search_in_content {cfg : Config} {content : String} {ts : List (String × String)} {k : String} :
    k ∈ search_in_content cfg content ts ↔
      ∃ v, (k, v) ∈ ts ∧ (v != "") = true ∧
        tryPatterns (!cfg.case_sensitive) (patternVariants (normCase cfg v)) content = true := by
  unfold search_in_content
  rw [List.mem_filterMap]
  constructor
  · rintro ⟨⟨k', v⟩, hkv, hf⟩
    dsimp only at hf
    split at hf
    · split at hf
      · exact ⟨v, by injection hf with h; rw [← h]; exact hkv, by assumption, by assumption⟩
      · exact absurd hf (by simp)
    · exact absurd hf (by simp)
  · rintro ⟨v, hkv, hne, ht⟩
    exact ⟨(k, v), hkv, by simp [hne, ht]⟩

lemma scanLoop_cons (cfg : Config) (ts : List (String × String)) (m : Bool)
    (f : PdfFile) (rest : List PdfFile) (acc : List SearchResult) :
    scanLoop cfg ts m (f :: rest) acc =
      if cfg.max_results ≤ acc.length then acc
      else
        match processFile cfg ts m f with
        | some r => scanLoop cfg ts m rest (acc ++ [r])
        | none => scanLoop cfg ts m rest acc := rfl

lemma scanLoop_length (cfg : Config) (ts : List (String × String)) (m : Bool) :
    ∀ (files : List PdfFile) (acc : List SearchResult),
      acc.length ≤ cfg.max_results → (scanLoop cfg ts m files acc).length ≤ cfg.max_results := by
  intro files
  induction files with
  | nil => intro acc h; simpa [scanLoop] using h
  | cons f rest ih =>
    intro acc h
    unfold scanLoop
    split
    · exact h
    · next hbr =>
      cases hpf : processFile cfg ts m f with
      | some r =>
        apply ih
        have : acc.length < cfg.max_results := Nat.lt_of_not_le hbr
        simp only [List.length_append, List.length_cons, List.length_nil]
        omega
      | none => exact ih acc h

lemma scanLoop_exists_append (cfg : Config) (ts : List (String × String)) (m : Bool) :
    ∀ (files : List PdfFile) (acc : List SearchResult),
      ∃ t, scanLoop cfg ts m files acc = acc ++ t := by
  intro files
  induction files with
  | nil => intro acc; exact ⟨[], by simp [scanLoop]⟩
  | cons f rest ih =>
    intro acc
    unfold scanLoop
    split
    · exact ⟨[], by simp⟩
    · cases hpf : processFile cfg ts m f with
      | some r =>
        obtain ⟨t, ht⟩ := ih (acc ++ [r])
        refine ⟨[r] ++ t, ?_⟩
        show scanLoop cfg ts m rest (acc ++ [r]) = _
        rw [ht, List.append_assoc]
      | none => exact ih acc

lemma mem_scanLoop_of_acc (cfg : Config) (ts : List (String × String)) (m : Bool)
    (files : List PdfFile) (acc : List SearchResult) {r : SearchResult} (h : r ∈ acc) :
    r ∈ scanLoop cfg ts m files acc := by
  obtain ⟨t, ht⟩ := scanLoop_exists_append cfg ts m files acc
  rw [ht]
  exact List.mem_append_left _ h

lemma mem_scanLoop_elim (cfg : Config) (ts : List (String × String)) (m : Bool) :
    ∀ (files : List PdfFile) (acc : List SearchResult) (r : SearchResult),
      r ∈ scanLoop cfg ts m files acc →
        r ∈ acc ∨ ∃ f ∈ files, processFile cfg ts m f = some r := by
  intro files
  induction files with
  | nil => intro acc r h; exact Or.inl (by simpa [scanLoop] using h)
  | cons f rest ih =>
    intro acc r h
    unfold scanLoop at h
    split at h
    · exact Or.inl h
    · cases hpf : processFile cfg ts m f with
      | some r' =>
        rw [hpf] at h
        rcases ih (acc ++ [r']) r h with hacc | ⟨g, hg, hpg⟩
        · rcases List.mem_append.mp hacc with h1 | h1
          · exact Or.inl h1
          · right
            refine ⟨f, List.mem_cons_self .., ?_⟩
            rw [hpf, List.mem_singleton.mp h1]
        · exact Or.inr ⟨g, List.mem_cons_of_mem _ hg, hpg⟩
      | none =>
        rw [hpf] at h
        rcases ih acc r h with h1 | ⟨g, hg, hpg⟩
        · exact Or.inl h1
        · exact Or.inr ⟨g, List.mem_cons_of_mem _ hg, hpg⟩

lemma scanLoop_complete (cfg : Config) (ts : List (String × String)) (m : Bool) :
    ∀ (files : List PdfFile) (acc : List SearchResult) (f : PdfFile) (r : SearchResult),
      (scanLoop cfg ts m files acc).length < cfg.max_results →
      f ∈ files → processFile cfg ts m f = some r →
      r ∈ scanLoop cfg ts m files acc := by
  intro files
  induction files with
  | nil => intro acc f r _ hf _; cases hf
  | cons f' rest ih =>
    intro acc f r hlen hf hpf
    by_cases hbr : cfg.max_results ≤ acc.length
    · exfalso
      rw [scanLoop_cons, if_pos hbr] at hlen
      omega
    · rcases List.mem_cons.mp hf with hff | hfrest
      · subst hff
        rw [scanLoop_cons, if_neg hbr, hpf]
        exact mem_scanLoop_of_acc cfg ts m rest _ (List.mem_append_right _ (List.mem_singleton_self r))
      · cases hpf' : processFile cfg ts m f' with
        | some r' =>
          rw [scanLoop_cons, if_neg hbr, hpf'] at hlen ⊢
          exact ih (acc ++ [r']) f r hlen hfrest hpf
        | none =>
          rw [scanLoop_cons, if_neg hbr, hpf'] at hlen ⊢
          exact ih acc f r hlen hfrest hpf

lemma processFile_path {cfg : Config} {ts : List (String × String)} {m : Bool} {f : PdfFile}
    {r : SearchResult} (h : processFile cfg ts m f = some r) : r.path = f.path := by
  unfold processFile at h
  split at h
  · split at h
    · injection h with h'
      rw [← h']
      rfl
    · exact absurd h (by simp)
  · exact absurd h (by simp)

lemma processFile_stat {cfg : Config} {ts : List (String × String)} {m : Bool} {f : PdfFile}
    {r : SearchResult} (h : processFile cfg ts m f = some r) : f.stat_ok = true := by
  unfold processFile at h
  split at h
  · assumption
  · exact absurd h (by simp)

lemma search_pdfs_ok_elim {cfg : Config} {fs : FileSystem} {e s c : String} {m : Bool}
    {res : List SearchResult} (h : search_pdfs cfg fs e s c m = Except.ok res) :
    ((mkSearchTerms e s c).isEmpty = true ∧ res = []) ∨
      ((mkSearchTerms e s c).isEmpty = false ∧ fs.root_exists = true ∧
        res = List.insertionSort RankRel (scanLoop cfg (mkSearchTerms e s c) m
          (if cfg.search_subdirectories then fs.files_recursive else fs.files_top) [])) := by
  unfold search_pdfs at h
  split at h
  · left
    refine ⟨by assumption, ?_⟩
    injection h with h'
    exact h'.symm
  · split at h
    · exact absurd h (by simp)
    · right
      next hne hroot =>
        refine ⟨by simpa using hne, by simpa using hroot, ?_⟩
        injection h with h'
        exact h'.symm

lemma processFile_all_to_any {cfg : Config} {ts : List (String × String)} {f : PdfFile}
    {r : SearchResult} (hts : ts ≠ []) (h : processFile cfg ts true f = some r) :
    processFile cfg ts false f = some (mkResult cfg ts false f) := by
  have hstat : f.stat_ok = true := processFile_stat h
  have hinc : shouldInclude cfg ts true f = true := by
    unfold processFile at h
    rw [hstat] at h
    simp only [if_true] at h
    split at h
    · assumption
    · exact absurd h (by simp)
  have hne2 : allMatchesOf cfg ts false f ≠ [] := by
    by_cases hfn : (fnMatchesOf cfg ts f).isEmpty = true
    · have hsame : allMatchesOf cfg ts false f = allMatchesOf cfg ts true f := by
        unfold allMatchesOf cmMatchesOf
        rw [hfn]
        simp
      obtain ⟨kv, hkv⟩ := List.exists_mem_of_ne_nil ts hts
      have hball : ((ts.map Prod.fst).all fun k => (allMatchesOf cfg ts true f).contains k) = true := by
        unfold shouldInclude at hinc
        simpa using hinc
      have hcont := List.all_eq_true.mp hball kv.1 (List.mem_map_of_mem _ hkv)
      have hmem : kv.1 ∈ allMatchesOf cfg ts true f := by simpa using hcont
      rw [hsame]
      intro hnil
      rw [hnil] at hmem
      cases hmem
    · have hfn2 : (fnMatchesOf cfg ts f).isEmpty = false := by
        simpa using hfn
      have hany : allMatchesOf cfg ts false f = (fnMatchesOf cfg ts f).dedup := by
        unfold allMatchesOf cmMatchesOf
        rw [hfn2]
        simp
      rw [hany]
      intro hnil
      rw [List.dedup_eq_nil] at hnil
      rw [hnil] at hfn2
      simp at hfn2
  have hincAny : shouldInclude cfg ts false f = true := by
    unfold shouldInclude
    simpa using hne2
  unfold processFile
  rw [hstat, hincAny]
  simp

lemma mkSearchTerms_isEmpty_false {e s c : String}
    (hne : ¬(pyStrip e = "" ∧ pyStrip s = "" ∧ pyStrip c = "")) :
    (mkSearchTerms e s c).isEmpty = false := by
  rw [List.isEmpty_eq_false]
  by_cases h1 : pyStrip e = ""
  · by_cases h2 : pyStrip s = ""
    · have h3 : pyStrip c ≠ "" := fun hc => hne ⟨h1, h2, hc⟩
      have : ("caratula", pyStrip c) ∈ mkSearchTerms e s c := by
        unfold mkSearchTerms
        exact List.mem_filter.mpr ⟨by simp, bne_iff_ne.mpr h3⟩
      exact List.ne_nil_of_mem this
    · have : ("sello", pyStrip s) ∈ mkSearchTerms e s c := by
        unfold mkSearchTerms
        exact List.mem_filter.mpr ⟨by simp, bne_iff_ne.mpr h2⟩
      exact List.ne_nil_of_mem this
  · have : ("expediente", pyStrip e) ∈ mkSearchTerms e s c := by
      unfold mkSearchTerms
      exact List.mem_filter.mpr ⟨by simp, bne_iff_ne.mpr h1⟩
    exact List.ne_nil_of_mem this

/-- C1: if all three criteria are empty after trimming, `search_pdfs`
returns `[]` at once — for every filesystem, in particular one whose root
does not exist, so no directory access happens and `DirectoryNotFound`
cannot be raised. -/
theorem c1_empty_criteria_no_fs (cfg : Config) (fs : FileSystem) (e s c : String) (m : Bool)
    (he : pyStrip e = "") (hs : pyStrip s = "") (hc : pyStrip c = "") :
    search_pdfs cfg fs e s c m = Except.ok [] := by
  have hts : mkSearchTerms e s c = [] := by
    unfold mkSearchTerms
    rw [he, hs, hc]
    rfl
  unfold search_pdfs
  rw [hts]
  rfl

/-- Witness for C1 at a concrete input with a missing root. -/
theorem c1_witness : search_pdfs cfg0 fsNone "" "   " "" false = Except.ok [] :=
  c1_empty_criteria_no_fs cfg0 fsNone "" "   " "" false (by decide) (by decide) (by decide)

/-- C2: every successful search returns at most `max_results` records; the
cap is enforced by the break in the scan loop, not by failing the call. -/
theorem c2_cap_invariant (cfg : Config) (fs : FileSystem) (e s c : String) (m : Bool)
    (res : List SearchResult) (h : search_pdfs cfg fs e s c m = Except.ok res) :
    res.length ≤ cfg.max_results := by
  rcases search_pdfs_ok_elim h with ⟨_, rfl⟩ | ⟨_, _, rfl⟩
  · simp
  · rw [List.length_insertionSort]
    exact scanLoop_length cfg _ m _ [] (Nat.zero_le _)

/-- Witness for C2 on a concrete corpus. -/
theorem c2_witness :
    (resultsOf (search_pdfs cfg0 fs0 "100" "55" "" false)).length ≤ cfg0.max_results :=
  c2_cap_invariant cfg0 fs0 "100" "55" "" false _ (by decide)

/-- C3: results are pairwise ordered: an earlier record has a strictly
greater relevance score, or an equal score and a later-or-equal
modification time. -/
theorem c3_ranking_order (cfg : Config) (fs : FileSystem) (e s c : String) (m : Bool)
    (res : List SearchResult) (h : search_pdfs cfg fs e s c m = Except.ok res) :
    res.Pairwise fun A B =>
      B.relevance_score < A.relevance_score ∨
        (A.relevance_score = B.relevance_score ∧ B.modified ≤ A.modified) := by
  rcases search_pdfs_ok_elim h with ⟨_, rfl⟩ | ⟨_, _, rfl⟩
  · exact List.Pairwise.nil
  · exact List.sorted_insertionSort RankRel _

/-- Witness for C3 on a concrete corpus producing three records with
relevance scores 2, 1, 1 and distinct timestamps. -/
theorem c3_witness :
    (resultsOf (search_pdfs cfg0 fs0 "100" "55" "" false)).Pairwise fun A B =>
      B.relevance_score < A.relevance_score ∨
        (A.relevance_score = B.relevance_score ∧ B.modified ≤ A.modified) :=
  c3_ranking_order cfg0 fs0 "100" "55" "" false _ (by decide)

/-- C5: with at least one non-empty criterion and a missing search root,
`search_pdfs` fails with `DirectoryNotFound` and produces no results. -/
theorem c5_missing_root (cfg : Config) (fs : FileSystem) (e s c : String) (m : Bool)
    (hne : ¬(pyStrip e = "" ∧ pyStrip s = "" ∧ pyStrip c = ""))
    (hroot : fs.root_exists = false) :
    search_pdfs cfg fs e s c m = Except.error SearchError.DirectoryNotFound := by
  have hts := mkSearchTerms_isEmpty_false hne
  unfold search_pdfs
  rw [hts, hroot]
  rfl

/-- Witness for C5 at a concrete input. -/
theorem c5_witness :
    search_pdfs cfg0 fsNone "100" "" "" true = Except.error SearchError.DirectoryNotFound :=
  c5_missing_root cfg0 fsNone "100" "" "" true (by decide) (by decide)

/-- C6: in a record emitted for a file, `content_matches` is the result of
matching the extracted text exactly when the filename matched nothing or
`match_all` was requested (so under `match_all` content is searched even
when the filename already matched), and in ANY mode a file whose filename
matched has empty `content_matches`. -/
theorem c6_extraction_policy (cfg : Config) (ts : List (String × String)) (m : Bool)
    (f : PdfFile) (r : SearchResult) (h : processFile cfg ts m f = some r) :
    ((r.filename_matches = [] ∨ m = true) →
      r.content_matches = search_in_content cfg (extract_text_from_pdf cfg f) ts) ∧
    (m = false → r.filename_matches ≠ [] → r.content_matches = []) := by
  have hr : r = mkResult cfg ts m f := by
    unfold processFile at h
    split at h
    · split at h
      · injection h with h'
        exact h'.symm
      · exact absurd h (by simp)
    · exact absurd h (by simp)
  subst hr
  constructor
  · intro hcase
    show cmMatchesOf cfg ts m f = _
    unfold cmMatchesOf
    rcases hcase with hfe | hm
    · have : (fnMatchesOf cfg ts f).isEmpty = true := by
        rw [List.isEmpty_iff]
        exact hfe
      rw [this]
      simp
    · rw [hm]
      simp
  · intro hm hfn
    show cmMatchesOf cfg ts m f = []
    have hfn2 : (fnMatchesOf cfg ts f).isEmpty = false := by
      rw [List.isEmpty_eq_false]
      exact hfn
    unfold cmMatchesOf
    rw [hm, hfn2]
    simp

/-- Witness for C6: concrete file whose filename matches in ANY mode, so
its record has empty `content_matches`. -/
theorem c6_witness :
    (mkResult cfg0 (mkSearchTerms "100" "" "") false fA).content_matches = [] :=
  (c6_extraction_policy cfg0 (mkSearchTerms "100" "" "") false fA
      (mkResult cfg0 (mkSearchTerms "100" "" "") false fA) (by decide)).2 rfl (by decide)

/-- C8: per-file failures never abort a search: a failed text extraction
yields the empty string, and a file whose per-file processing raised is
skipped — no record is appended for it and the scan continues on the rest
of the corpus with the accumulated results unchanged. -/
theorem c8_per_file_isolation (cfg : Config) (ts : List (String × String)) (m : Bool)
    (f g : PdfFile) (rest : List PdfFile) (acc : List SearchResult)
    (hf : f.extract_ok = false) (hg : g.stat_ok = false)
    (hacc : acc.length < cfg.max_results) :
    extract_text_from_pdf cfg f = "" ∧ processFile cfg ts m g = none ∧
    scanLoop cfg ts m (g :: rest) acc = scanLoop cfg ts m rest acc := by
  have hpg : processFile cfg ts m g = none := by
    unfold processFile
    rw [hg]
    simp
  refine ⟨by unfold extract_text_from_pdf; rw [hf]; simp, hpg, ?_⟩
  rw [scanLoop_cons, if_neg (Nat.not_le.mpr hacc), hpg]

/-- Witness for C8 at concrete inputs. -/
theorem c8_witness :
    extract_text_from_pdf cfg0 fBadExtract = "" ∧
    processFile cfg0 (mkSearchTerms "100" "55" "") false fBadStat = none ∧
    scanLoop cfg0 (mkSearchTerms "100" "55" "") false [fBadStat] [] =
      scanLoop cfg0 (mkSearchTerms "100" "55" "") false [] [] :=
  c8_per_file_isolation cfg0 (mkSearchTerms "100" "55" "") false fBadExtract fBadStat [] []
    (by decide) (by decide) (by decide)

/-- C4 counterexample: with `max_results = 1` over a corpus whose first
file matches only `expediente` and whose second matches both terms, the
`matchAll = true` run returns the second file while the `matchAll = false`
run caps out on the first — so the ALL result set is not contained in the
ANY result set. -/
theorem c4_counterexample :
    pathsOf (search_pdfs cfgCap1 fsCex "100" "55" "" true) = ["pdfs/100 55.pdf"] ∧
    pathsOf (search_pdfs cfgCap1 fsCex "100" "55" "" false) = ["pdfs/expediente_100.pdf"] ∧
    ¬("pdfs/100 55.pdf" ∈ pathsOf (search_pdfs cfgCap1 fsCex "100" "55" "" false)) := by
  refine ⟨by decide, by decide, by decide⟩

/-- C4 amended: for a fixed corpus and criteria, the files returned under
`matchAll = true` form a subset of those returned under `matchAll = false`
provided the ANY scan did not reach the result cap; cap truncation of the
ANY scan can break the inclusion (see the counterexample). -/
theorem c4_all_subset_any (cfg : Config) (fs : FileSystem) (e s c : String)
    (resAny resAll : List SearchResult)
    (hAny : search_pdfs cfg fs e s c false = Except.ok resAny)
    (hAll : search_pdfs cfg fs e s c true = Except.ok resAll)
    (hcap : resAny.length < cfg.max_results) :
    (resAll.map fun r => r.path) ⊆ resAny.map fun r => r.path := by
  rcases search_pdfs_ok_elim hAll with ⟨hemp, rfl⟩ | ⟨hemp, hroot, rfl⟩
  · simp
  · rcases search_pdfs_ok_elim hAny with ⟨hemp2, _⟩ | ⟨hemp2, hroot2, rfl⟩
    · rw [hemp2] at hemp
      cases hemp
    · intro x hx
      rw [List.mem_map] at hx
      obtain ⟨r, hr, rfl⟩ := hx
      have hrAll : r ∈ scanLoop cfg (mkSearchTerms e s c) true
          (if cfg.search_subdirectories then fs.files_recursive else fs.files_top) [] :=
        (List.mem_insertionSort RankRel).mp hr
      rcases mem_scanLoop_elim cfg _ true _ [] r hrAll with habs | ⟨f, hfmem, hpf⟩
      · cases habs
      · have hts : mkSearchTerms e s c ≠ [] := by
          intro h0
          rw [h0] at hemp
          cases hemp
        have hpfAny := processFile_all_to_any hts hpf
        have hlen : (scanLoop cfg (mkSearchTerms e s c) false
            (if cfg.search_subdirectories then fs.files_recursive else fs.files_top) []).length <
            cfg.max_results := by
          rw [← List.length_insertionSort RankRel]
          exact hcap
        have hrAny := scanLoop_complete cfg (mkSearchTerms e s c) false _ [] f _ hlen hfmem hpfAny
        rw [List.mem_map]
        refine ⟨mkResult cfg (mkSearchTerms e s c) false f,
          (List.mem_insertionSort RankRel).mpr hrAny, ?_⟩
        rw [processFile_path hpf]
        rfl

/-- Witness for the amended C4 on a concrete corpus where the ANY scan
stays below the cap. -/
theorem c4_witness :
    ((resultsOf (search_pdfs cfg0 fs0 "100" "55" "" true)).map fun r => r.path) ⊆
      (resultsOf (search_pdfs cfg0 fs0 "100" "55" "" false)).map fun r => r.path :=
  c4_all_subset_any cfg0 fs0 "100" "55" "" _ _ (by decide) (by decide) (by decide)

/-- C7 counterexample: the pattern-variant battery is not applied to
filenames.  For the term "123-456", a filename where the hyphen appears as
whitespace is NOT recorded as a filename match (first conjunct), although
the same text as extracted content does match via the hyphen variant
(second conjunct). -/
theorem c7_counterexample :
    search_in_filename cfg0 "123 456.pdf" [("expediente", "123-456")] = [] ∧
    search_in_content cfg0 "123 456" [("expediente", "123-456")] = ["expediente"] := by
  refine ⟨by decide, by decide⟩

/-- C7 amended: filename matching tests plain (case-folded) substring
containment only; the pattern-variant battery applies only to extracted
content.  Consequently a term with an internal hyphen does not match a
filename in which that hyphen appears as whitespace. -/
theorem c7_filename_plain_substring :
    (∀ (cfg : Config) (fn : String) (ts : List (String × String)) (k : String),
      k ∈ search_in_filename cfg fn ts ↔
        ∃ v, (k, v) ∈ ts ∧ (v != "") = true ∧
          pySubstr (normCase cfg v) (normCase cfg fn) = true) ∧
    search_in_filename cfg0 "123 456.pdf" [("expediente", "123-456")] = [] :=
  ⟨fun _ _ _ _ => mem_search_in_filename, by decide⟩

/-- Witness for the amended C7: a plain substring of the filename is
recorded as a filename match. -/
theorem c7_witness :
    "expediente" ∈ search_in_filename cfg0 "expediente_100.pdf" [("expediente", "100")] :=
  (c7_filename_plain_substring.1 cfg0 "expediente_100.pdf" [("expediente", "100")]
    "expediente").mpr ⟨"100", by decide, by decide, by decide⟩

/-- C9: content matching builds, per term, the variant list in the stated
priority order (literal, regex-escaped, hyphen class, slash class,
generalized whitespace); the term matches when some variant finds an
occurrence, variants that fail to compile being skipped rather than fatal
(`Option.getD false` treats `re.error` as a non-match); and consequently
the term "123-456" matches content containing "123 456". -/
theorem c9_content_pattern_battery :
    (∀ t : String, patternVariants t =
      [t, reEscape t, replaceChar t '-' "[-\\s]?", replaceChar t '/' "[/\\s]?",
        replaceChar t ' ' "\\s+"]) ∧
    (∀ (ic : Bool) (ps : List String) (content : String),
      tryPatterns ic ps content = ps.any fun p => (reSearch ic p content).getD false) ∧
    (∀ (cfg : Config) (content : String) (ts : List (String × String)) (k : String),
      k ∈ search_in_content cfg content ts ↔
        ∃ v, (k, v) ∈ ts ∧ (v != "") = true ∧
          ((patternVariants (normCase cfg v)).any fun p =>
            (reSearch (!cfg.case_sensitive) p content).getD false) = true) ∧
    search_in_content cfg0 "anexo 123 456 fojas" [("expediente", "123-456")] = ["expediente"] := by
  refine ⟨fun t => rfl, tryPatterns_eq_any, ?_, by decide⟩
  intro cfg content ts k
  rw [mem_search_in_content]
  simp only [tryPatterns_eq_any]

/-- Witness for C9: the concrete hyphen-for-whitespace match extracted
from the theorem. -/
theorem c9_witness :
    search_in_content cfg0 "anexo 123 456 fojas" [("expediente", "123-456")] = ["expediente"] :=
  c9_content_pattern_battery.2.2.2

lemma foldl_cls6 (acc : List Piece) (pend : Option Atom) :
    List.foldl step (PState.norm acc pend) ("[-\\s]?".data) =
      PState.norm (Piece.opt (Atom.cls false [ClassItem.ch '-', ClassItem.ws]) :: flushP acc pend)
        none := rfl

lemma plain_step {x : Char} (h : plainRegexChar x = true) (acc : List Piece) (pend : Option Atom) :
    step (PState.norm acc pend) x = PState.norm (flushP acc pend) (some (Atom.lit x)) := by
  unfold plainRegexChar at h
  simp only [Bool.not_eq_true', Bool.or_eq_false_iff, beq_eq_false_iff_ne, ne_eq] at h
  obtain ⟨⟨⟨⟨⟨⟨⟨⟨⟨⟨⟨⟨h1, h2⟩, h3⟩, h4⟩, h5⟩, h6⟩, h7⟩, h8⟩, h9⟩, h10⟩, h11⟩, h12⟩, h13⟩ := h
  unfold step
  simp [h1, h2, h3, h4, h5, h6, h7, h8, h9, h10, h11, h12, h13]

lemma replaceCharL_nil (c : Char) (r : List Char) : replaceCharL [] c r = [] := rfl

lemma replaceCharL_cons (x : Char) (cs : List Char) (c : Char) (r : List Char) :
    replaceCharL (x :: cs) c r =
      if x == c then r ++ replaceCharL cs c r else x :: replaceCharL cs c r := rfl

lemma foldl_step_repl :
    ∀ (cs : List Char), (∀ x ∈ cs, x = '-' ∨ plainRegexChar x = true) →
      ∀ (acc : List Piece) (pend : Option Atom),
        ∃ acc2 pend2,
          List.foldl step (PState.norm acc pend) (replaceCharL cs '-' ("[-\\s]?".data)) =
            PState.norm acc2 pend2 ∧
          flushP acc2 pend2 = (piecesOf cs).reverse ++ flushP acc pend := by
  intro cs
  induction cs with
  | nil =>
    intro _ acc pend
    exact ⟨acc, pend, rfl, by simp [piecesOf]⟩
  | cons x cs ih =>
    intro h acc pend
    by_cases hx : x = '-'
    · subst hx
      rw [replaceCharL_cons]
      simp only [beq_self_eq_true, if_true]
      rw [List.foldl_append, foldl_cls6]
      obtain ⟨acc2, pend2, he, hf⟩ :=
        ih (fun y hy => h y (List.mem_cons_of_mem _ hy))
          (Piece.opt (Atom.cls false [ClassItem.ch '-', ClassItem.ws]) :: flushP acc pend) none
      refine ⟨acc2, pend2, he, ?_⟩
      rw [hf]
      simp [piecesOf, flushP, List.append_assoc]
    · have hpl : plainRegexChar x = true := (h x (List.mem_cons_self ..)).resolve_left hx
      rw [replaceCharL_cons, if_neg (by simpa using hx)]
      rw [List.foldl_cons, plain_step hpl]
      obtain ⟨acc2, pend2, he, hf⟩ :=
        ih (fun y hy => h y (List.mem_cons_of_mem _ hy)) (flushP acc pend) (some (Atom.lit x))
      refine ⟨acc2, pend2, he, ?_⟩
      rw [hf]
      simp [piecesOf, flushP, hx, List.append_assoc]

lemma parseRE_repl (t : String) (h : ∀ x ∈ t.data, x = '-' ∨ plainRegexChar x = true) :
    parseRE (replaceChar t '-' "[-\\s]?") = some (piecesOf t.data) := by
  obtain ⟨acc2, pend2, he, hf⟩ := foldl_step_repl t.data h [] none
  show finalize (List.foldl step (PState.norm [] none) (replaceCharL t.data '-' ("[-\\s]?".data))) = _
  rw [he]
  show some (flushP acc2 pend2).reverse = _
  rw [hf]
  simp [flushP]

lemma matchHere_piecesOf (ic : Bool) :
    ∀ (cs post : List Char) (fuel : Nat),
      (piecesOf cs).length + (cs.filter fun c => !(c == '-')).length + post.length + 1 ≤ fuel →
      matchHere ic fuel (piecesOf cs) ((cs.filter fun c => !(c == '-')) ++ post) = true := by
  intro cs
  induction cs with
  | nil =>
    intro post fuel hf
    obtain ⟨n, rfl⟩ : ∃ n, fuel = n + 1 := ⟨fuel - 1, by omega⟩
    simp [piecesOf, matchHere]
  | cons c cs ih =>
    intro post fuel hf
    by_cases hc : c = '-'
    · subst hc
      have hfil : (('-' :: cs).filter fun c => !(c == '-')) = cs.filter fun c => !(c == '-') := by
        simp [List.filter_cons]
      have hpc : piecesOf ('-' :: cs) =
          Piece.opt (Atom.cls false [ClassItem.ch '-', ClassItem.ws]) :: piecesOf cs := by
        simp [piecesOf]
      rw [hfil] at hf ⊢
      rw [hpc] at hf ⊢
      obtain ⟨n, rfl⟩ : ∃ n, fuel = n + 1 := ⟨fuel - 1, by omega⟩
      have hih := ih post n (by simp at hf ⊢; omega)
      unfold matchHere
      rw [hih]
      simp
    · have hfil : ((c :: cs).filter fun x => !(x == '-')) =
          c :: (cs.filter fun x => !(x == '-')) := by
        simp [List.filter_cons, hc]
      have hpc : piecesOf (c :: cs) = Piece.once (Atom.lit c) :: piecesOf cs := by
        simp [piecesOf, hc]
      rw [hfil] at hf ⊢
      rw [hpc] at hf ⊢
      obtain ⟨n, rfl⟩ : ∃ n, fuel = n + 1 := ⟨fuel - 1, by omega⟩
      have hih := ih post n (by simp at hf ⊢; omega)
      unfold matchHere
      have hatom : matchAtom ic (Atom.lit c) c = true := by
        unfold matchAtom ceq
        cases ic <;> simp
      rw [List.cons_append]
      simp only []
      rw [hatom, hih]
      simp

lemma reMatchAt_piecesOf (ic : Bool) (cs post : List Char) :
    reMatchAt ic (piecesOf cs) ((cs.filter fun c => !(c == '-')) ++ post) = true := by
  unfold reMatchAt
  apply matchHere_piecesOf
  simp [List.length_append]
  omega

lemma reFind_here {ic : Bool} {ps : List Piece} {s : List Char}
    (h : reMatchAt ic ps s = true) : reFind ic ps s = true := by
  cases s with
  | nil => simpa [reFind] using h
  | cons c t => simp [reFind, h]

lemma reFind_append_left (ic : Bool) (ps : List Piece) :
    ∀ (pre rest : List Char), reFind ic ps rest = true → reFind ic ps (pre ++ rest) = true := by
  intro pre
  induction pre with
  | nil => intro rest h; simpa using h
  | cons c pre ih =>
    intro rest h
    rw [List.cons_append]
    unfold reFind
    rw [ih rest h]
    simp

/-- C10 counterexample: the claim fails for a term whose other characters
have regex meaning.  The term "a+-b" has an internal hyphen and the content
"a+b" is exactly the term with the hyphen deleted, yet no pattern variant
matches (in the hyphen variant `a+[-\s]?b` the `+` quantifier consumes the
literal `a` and cannot match the literal `+` of the content), so content
matching records nothing. -/
theorem c10_counterexample :
    search_in_content cfg0 "a+b" [("expediente", "a+-b")] = [] ∧
    ("a+-b".data.filter fun c => !(c == '-')) = "a+b".data ∧
    '-' ∈ "a+-b".data := by
  refine ⟨by decide, by decide, by decide⟩

/-- C10 amended: for a term containing a hyphen whose remaining characters
have no regex meaning (`plainRegexChar`), content containing the term with
all hyphens deleted is recorded as a match — the hyphen variant turns each
hyphen into the optional class `[-\s]?`, which also matches zero
characters (e.g. "123-456" matches "123456"). -/
theorem c10_hyphen_deletion (cfg : Config) (k t content : String) (pre post : List Char)
    (hne : (t != "") = true)
    (hhy : '-' ∈ (normCase cfg t).data)
    (hplain : ∀ x ∈ (normCase cfg t).data, x = '-' ∨ plainRegexChar x = true)
    (hcontent : content.data =
      pre ++ ((normCase cfg t).data.filter fun c => !(c == '-')) ++ post) :
    k ∈ search_in_content cfg content [(k, t)] := by
  rw [mem_search_in_content]
  refine ⟨t, by simp, hne, ?_⟩
  rw [tryPatterns_eq_any]
  apply List.any_eq_true.mpr
  refine ⟨replaceChar (normCase cfg t) '-' "[-\\s]?", by simp [patternVariants], ?_⟩
  unfold reSearch
  rw [parseRE_repl _ hplain]
  simp only [Option.map_some', Option.getD_some]
  rw [hcontent, List.append_assoc]
  apply reFind_append_left
  exact reFind_here (reMatchAt_piecesOf _ _ _)

/-- Witness for the amended C10: "123-456" recorded as a match in content
"z123456z". -/
theorem c10_witness :
    "expediente" ∈ search_in_content cfg0 "z123456z" [("expediente", "123-456")] :=
  c10_hyphen_deletion cfg0 "expediente" "123-456" "z123456z" ['z'] ['z']
    (by decide) (by decide) (by decide) (by decide)
